import Mathlib

/-!
Verification of `exceljs-stream-utils` (`src/index.ts`) against its
natural-language specification.

The development shallowly embeds the library's core in Lean:

* JS timestamps (`Date` time values) are integers in milliseconds; a JS
  `Date` object is `Option Int` (`none` = "Invalid Date", i.e. a NaN time
  value).
* `Date.UTC` / the UTC field getters are embedded as exact proleptic
  Gregorian calendar arithmetic (Howard Hinnant's `days_from_civil` /
  `civil_from_days` algorithms, which are the arithmetic specified by
  ECMA-262 for these operations).
* The host time-zone database (`Intl.DateTimeFormat(...).formatToParts`)
  is an external collaborator and is abstracted as a `Zone`: a function
  from an instant to the calendar fields displayed in that zone, plus a
  validity flag standing for whether `Intl` resolves the zone identifier.
* Cell numbers are modelled as exact rationals; JS `TimeClip` (the
  ±8.64e15 ms range check plus truncation) is applied where the source
  constructs a `Date` from a computed number.
* Fallible code returns `Except String`, carrying the source's error
  messages.
-/

deriving instance DecidableEq for Except

namespace ExcelStream

/-! ## Calendar arithmetic (embedding of ECMA-262 `Date.UTC` and the UTC getters) -/

/-- Days from 1970-01-01 of the civil date `(y, m, d)` with `m ∈ 1..12`,
proleptic Gregorian (Hinnant's `days_from_civil`; `Int.ediv` is floor
division for positive divisors). -/
def daysFromCivil (y m d : Int) : Int :=
  let y' := y - (if m ≤ 2 then 1 else 0)
  let era := y'.ediv 400
  let yoe := y' - era * 400
  let doy := (153 * (m + (if 2 < m then -3 else 9)) + 2).ediv 5 + d - 1
  let doe := yoe * 365 + yoe.ediv 4 - yoe.ediv 100 + doy
  era * 146097 + doe - 719468

/-- Wall-clock fields, as in the source's `DateTimeParts` interface. -/
structure DateTimeParts where
  year : Int
  month : Int
  day : Int
  hour : Int
  minute : Int
  second : Int
  millisecond : Int
  deriving DecidableEq, Repr

/-- ECMA-262 `Date.UTC(y, m0, d, h, mi, s, ms)` (month index `m0` is
0-based and, like the day and time fields, may be out of range — fields
are normalized by floor-division carrying). Years `0..99` are mapped to
`1900..1999`. The `TimeClip` range check is handled at the points where
the source turns a computed number into a `Date`. -/
def dateUTC (y m0 d h mi s ms : Int) : Int :=
  let yr := if 0 ≤ y ∧ y ≤ 99 then 1900 + y else y
  let ym := yr + m0.ediv 12
  let mn := m0.emod 12
  let day := daysFromCivil ym (mn + 1) 1 + (d - 1)
  day * 86400000 + h * 3600000 + mi * 60000 + s * 1000 + ms

/-- `toUtcMillis` from the source: `Date.UTC(parts.year, parts.month - 1,
parts.day, parts.hour, parts.minute, parts.second, parts.millisecond)`. -/
def toUtcMillis (parts : DateTimeParts) : Int :=
  dateUTC parts.year (parts.month - 1) parts.day parts.hour parts.minute
    parts.second parts.millisecond

/-- ECMA-262 `msFromTime`: `Date.prototype.getUTCMilliseconds`. -/
def msFromTime (t : Int) : Int := t.emod 1000

/-- Inverse calendar decomposition (Hinnant's `civil_from_days` plus the
time-of-day split): the UTC calendar fields of an instant, i.e. the
combination of the `getUTCFullYear` .. `getUTCMilliseconds` getters. -/
def civilFromMillis (t : Int) : DateTimeParts :=
  let days := t.ediv 86400000
  let msod := t.emod 86400000
  let z := days + 719468
  let era := z.ediv 146097
  let doe := z - era * 146097
  let yoe := (doe - doe.ediv 1460 + doe.ediv 36524 - doe.ediv 146096).ediv 365
  let y := yoe + era * 400
  let doy := doe - (365 * yoe + yoe.ediv 4 - yoe.ediv 100)
  let mp := (5 * doy + 2).ediv 153
  let d := doy - (153 * mp + 2).ediv 5 + 1
  let m := mp + (if mp < 10 then 3 else -9)
  { year := y + (if m ≤ 2 then 1 else 0)
    month := m
    day := d
    hour := msod.ediv 3600000
    minute := (msod.ediv 60000).emod 60
    second := (msod.ediv 1000).emod 60
    millisecond := msod.emod 1000 }

/-! ## Time zones

`Intl.DateTimeFormat('en-CA', { timeZone, ... }).formatToParts(date)` is
the external time-zone database. A `Zone` models it: `fields t` is the
year..second wall-clock reading the formatter reports for the instant `t`
(its `millisecond` component is irrelevant — the source overrides it),
and `valid` stands for whether `new Intl.DateTimeFormat('en-US',
{ timeZone })` succeeds for the identifier `name`. -/

structure Zone where
  name : String
  valid : Bool
  fields : Int → DateTimeParts

/-- `assertValidDate(date, label)`: throws `Invalid <label>` on a NaN time
value, otherwise yields the (finite) time value. -/
def assertValidDate (date : Option Int) (label : String) : Except String Int :=
  match date with
  | none => .error ("Invalid " ++ label)
  | some t => .ok t

/-- `assertValidTimeZone`: throws `Invalid time zone: <tz>` when `Intl`
cannot resolve the identifier. -/
def assertValidTimeZone (z : Zone) : Except String Unit :=
  if z.valid then .ok () else .error ("Invalid time zone: " ++ z.name)

/-- `getTimeZoneParts(date, timeZone)`: the formatter's year..second
fields for the instant, with the millisecond taken from
`date.getUTCMilliseconds()`. -/
def getTimeZoneParts (z : Zone) (t : Int) : DateTimeParts :=
  { z.fields t with millisecond := msFromTime t }

/-- `getTimeZoneOffsetMs(date, timeZone) = toUtcMillis(zoned) - date.getTime()`. -/
def getTimeZoneOffsetMs (z : Zone) (t : Int) : Int :=
  toUtcMillis (getTimeZoneParts z t) - t

/-- The `for (let attempt = 0; attempt < 4; ...)` loop of
`localDateTimeInZoneToUtc`, with the remaining attempt count as fuel.
Each step recomputes `next = localAsUtc - offset(guess)` and breaks when
`next == guess`. -/
def l2uLoop (z : Zone) (localAsUtc : Int) : Nat → Int → Int
  | 0, guess => guess
  | n + 1, guess =>
    let offset := getTimeZoneOffsetMs z guess
    let next := localAsUtc - offset
    if next = guess then guess else l2uLoop z localAsUtc n next

/-- `localDateTimeInZoneToUtc(parts, timeZone)`: starts from the
wall-clock fields read as if they were UTC and iterates at most 4 times. -/
def localDateTimeInZoneToUtc (z : Zone) (parts : DateTimeParts) : Int :=
  l2uLoop z (toUtcMillis parts) 4 (toUtcMillis parts)

/-- `replaceDateTimeZoneByUserTimeZone(date, timeZone)`: validates, then
feeds the date's UTC fields to `localDateTimeInZoneToUtc`. -/
def replaceDateTimeZoneByUserTimeZone (date : Option Int) (z : Zone) :
    Except String Int := do
  let t ← assertValidDate date "date"
  let _ ← assertValidTimeZone z
  .ok (localDateTimeInZoneToUtc z (civilFromMillis t))

/-- `reinterpretDateToTimeZone` is an alias of
`replaceDateTimeZoneByUserTimeZone`. -/
def reinterpretDateToTimeZone (date : Option Int) (z : Zone) :
    Except String Int :=
  replaceDateTimeZoneByUserTimeZone date z

/-- `utcDateToExcelLocalDate(dateUtc, timeZone)`: validates, then builds a
host-local `Date` from the zone's wall-clock fields (`new Date(y, m-1, d,
h, mi, s, ms)`). The constructed value is interpreted in the host's local
zone, so the model keeps it as the wall-clock fields that were passed to
the constructor. -/
def utcDateToExcelLocalDate (date : Option Int) (z : Zone) :
    Except String DateTimeParts := do
  let t ← assertValidDate date "date"
  let _ ← assertValidTimeZone z
  .ok (getTimeZoneParts z t)

/-! ### Test fixture: a fixed-offset zone (UTC+1), used to instantiate
theorems at concrete inputs. Its formatter reports the calendar fields of
`t + 3600000`, exactly as `Intl` does for `Etc/GMT-1`. -/

def zoneHour : Zone :=
  { name := "Etc/GMT-1", valid := true
    fields := fun t => civilFromMillis (t + 3600000) }

/-- 1970-01-01T00:00:00.000 as wall-clock fields. -/
def epochParts : DateTimeParts :=
  { year := 1970, month := 1, day := 1, hour := 0, minute := 0, second := 0
    millisecond := 0 }

example : toUtcMillis epochParts = 0 := by decide
example : getTimeZoneOffsetMs zoneHour 0 = 3600000 := by decide
example : localDateTimeInZoneToUtc zoneHour epochParts = -3600000 := by decide

/-- The `toUtcInstant` fixed-point iteration exactly as the specification
words it: on each step `candidate = guess − offset` (subtracting the
offset from the *current guess* rather than from the fixed
wall-clock-as-UTC value), converging when `candidate == guess`, at most
4 iterations. Stated from the spec's words, to be compared with the
source's `localDateTimeInZoneToUtc`. -/
def claimedToUtcLoop (z : Zone) : Nat → Int → Int
  | 0, guess => guess
  | n + 1, guess =>
    let offset := getTimeZoneOffsetMs z guess
    let candidate := guess - offset
    if candidate = guess then guess else claimedToUtcLoop z n candidate

/-- The claimed algorithm: initialize `guess` to the wall-clock fields
read as if they were already UTC, then iterate `claimedToUtcLoop`. -/
def claimedToUtcInstant (z : Zone) (parts : DateTimeParts) : Int :=
  claimedToUtcLoop z 4 (toUtcMillis parts)

end ExcelStream

namespace ExcelStream

/-- C1 (counterexample): the claimed step `candidate = guess − offset`
does not describe the code. For the fixed-offset zone UTC+1 and the
wall-clock fields 1970-01-01T00:00:00, the code's
`localDateTimeInZoneToUtc` returns −3600000 ms (it subtracts the offset
from the fixed wall-clock-as-UTC value each step and converges on the
second iteration), while the claimed iteration subtracts from the current
guess, never converges, and returns −14400000 ms after 4 iterations. -/
theorem C1_counterexample :
    localDateTimeInZoneToUtc zoneHour epochParts ≠
      claimedToUtcInstant zoneHour epochParts := by
  decide

/-- C1 (amended): for every wall-clock fields input and every zone,
`localDateTimeInZoneToUtc` computes its result by the fixed-point
iteration with `candidate = localAsUtc − offset(guess)` — the offset
looked up at the current guess is subtracted from the *fixed*
wall-clock-as-UTC value `localAsUtc`, not from the guess; the iteration
returns the guess as soon as the candidate equals it, performs at most 4
offset lookups, and otherwise returns the 4th candidate. The right-hand
side below is the complete, deterministic unrolling. -/
theorem C1_theorem (z : Zone) (p : DateTimeParts) :
    localDateTimeInZoneToUtc z p =
      (let localAsUtc := toUtcMillis p
       let g1 := localAsUtc - getTimeZoneOffsetMs z localAsUtc
       if g1 = localAsUtc then localAsUtc
       else
         let g2 := localAsUtc - getTimeZoneOffsetMs z g1
         if g2 = g1 then g1
         else
           let g3 := localAsUtc - getTimeZoneOffsetMs z g2
           if g3 = g2 then g2
           else
             let g4 := localAsUtc - getTimeZoneOffsetMs z g3
             if g4 = g3 then g3 else g4) :=
  rfl

/-- C2: converting a UTC instant `t` to a zone's wall-clock fields and
back returns `t` exactly, whenever the zone's offset is stable across the
conversion window (the formalization of "no DST offset discontinuity at
`t`": the offset at the wall-clock-as-UTC reading `t + offset(t)` equals
the offset at `t`). -/
theorem C2_theorem (z : Zone) (t : Int)
    (h : getTimeZoneOffsetMs z (t + getTimeZoneOffsetMs z t) =
         getTimeZoneOffsetMs z t) :
    localDateTimeInZoneToUtc z (getTimeZoneParts z t) = t := by
  have hL : toUtcMillis (getTimeZoneParts z t) = t + getTimeZoneOffsetMs z t := by
    unfold getTimeZoneOffsetMs
    ring
  unfold localDateTimeInZoneToUtc
  rw [hL]
  simp only [l2uLoop, h]
  have hnext : t + getTimeZoneOffsetMs z t - getTimeZoneOffsetMs z t = t := by
    ring
  rw [hnext]
  by_cases ht : t = t + getTimeZoneOffsetMs z t
  · simp [← ht]
  · simp only [if_neg ht, l2uLoop]
    rw [hnext]
    simp

/-- C2 witness: the round trip at `t = 0` in the fixed-offset UTC+1 zone,
whose offset is stable everywhere. -/
theorem C2_witness :
    getTimeZoneOffsetMs zoneHour (0 + getTimeZoneOffsetMs zoneHour 0) =
        getTimeZoneOffsetMs zoneHour 0 ∧
      localDateTimeInZoneToUtc zoneHour (getTimeZoneParts zoneHour 0) = 0 :=
  ⟨by decide, C2_theorem zoneHour 0 (by decide)⟩

/-! ## Cell values

An ExcelJS cell value is one of: null/undefined, a string, a number, a
boolean, a `Date` (possibly invalid), a rich-text object, or a formula
object carrying an optional cached `result`. Formula results are plain
(non-formula) values, so the model keeps them in a separate flat type.
Cell numbers are exact rationals (the model of the JS float where the
claims need only exactly-representable values). -/

inductive PrimVal where
  | null
  | str (s : String)
  | num (q : ℚ)
  | bool (b : Bool)
  | date (d : Option Int)
  | rich (parts : List String)
  deriving DecidableEq, Repr

inductive CellVal where
  | prim (v : PrimVal)
  | formula (result : Option PrimVal)
  deriving DecidableEq, Repr

/-- An ExcelJS cell exposes its `value` and its display-format string
`numFmt` (absent, or any string). -/
structure Cell where
  value : CellVal
  numFmt : Option String
  deriving DecidableEq, Repr

/-- ECMA-262 `TimeClip` as applied by `new Date(number)`: NaN (here
`none`) when the magnitude exceeds 8.64e15 ms, otherwise truncation
toward zero. The magnitude test `|q| ≤ 8.64e15` is phrased on the
rational's components (`|num| ≤ 8.64e15 * den`), which is the same
predicate. -/
def timeClip (q : ℚ) : Option Int :=
  if q.num.natAbs ≤ 8640000000000000 * q.den then some (q.num.tdiv q.den)
  else none

/-- `excelSerialToDate(serial, date1904) = new Date(epoch + serial *
86_400_000)` with the 1899-12-30 or 1904-01-01 UTC epoch. -/
def excelSerialToDate (serial : ℚ) (date1904 : Bool) : Option Int :=
  let epoch : Int :=
    if date1904 then dateUTC 1904 0 1 0 0 0 0 else dateUTC 1899 11 30 0 0 0 0
  timeClip ((epoch : ℚ) + serial * 86400000)

/-- The `/[dmyhs]/i` regex test on a cell-format string: a total
character scan that cannot fail, whatever the string contains. -/
def isDateFormat (fmt : String) : Bool :=
  fmt.toList.any fun c =>
    c ∈ (['d', 'm', 'y', 'h', 's', 'D', 'M', 'Y', 'H', 'S'] : List Char)

/-- The `typeof cell.numFmt === 'string' && /[dmyhs]/i.test(cell.numFmt)`
conjunct of the date-serial detection. -/
def numFmtIsDate : Option String → Bool
  | some fmt => isDateFormat fmt
  | none => false

/-- `normalizeCellValue(cell, parseDates, date1904, timeZone)`, in source
order: null passes through; a `Date` is zone-reinterpreted when a zone is
configured; an object with a `result` key yields `result ?? null`
unchanged; a number whose format is date-like is decoded as a serial (and
then zone-reinterpreted when a zone is configured); anything else passes
through. -/
def normalizeCellValue (cell : Cell) (parseDates : Bool) (date1904 : Bool)
    (timeZone : Option Zone) : Except String PrimVal :=
  match cell.value with
  | .prim .null => .ok .null
  | .prim (.date d) =>
    match timeZone with
    | some z => (fun t => PrimVal.date (some t)) <$> reinterpretDateToTimeZone d z
    | none => .ok (.date d)
  | .formula result => .ok (result.getD .null)
  | .prim (.num q) =>
    if parseDates && numFmtIsDate cell.numFmt then
      let d := excelSerialToDate q date1904
      match timeZone with
      | some z => (fun t => PrimVal.date (some t)) <$> reinterpretDateToTimeZone d z
      | none => .ok (.date d)
    else .ok (.num q)
  | .prim v => .ok v

/-- C5 (counterexample): a formula cell with a cached `Date` result is
*not* normalized like a plain cell holding that date. With the UTC+1 zone
configured, the cached date `0` is returned untouched, while a plain cell
with the same date is zone-reinterpreted to −3600000 ms. -/
theorem C5_counterexample :
    normalizeCellValue ⟨.formula (some (.date (some 0))), none⟩ true false
        (some zoneHour) = .ok (.date (some 0)) ∧
      normalizeCellValue ⟨.prim (.date (some 0)), none⟩ true false
        (some zoneHour) = .ok (.date (some (-3600000))) :=
  ⟨rfl, rfl⟩

/-- C5 (amended): for every formula cell, `normalizeCellValue` returns
the cached result as-is when present and null otherwise — the formula
expression is ignored, and no recursive normalization (in particular no
zone reinterpretation and no date-serial decoding) is applied to the
cached result, under every option combination. -/
theorem C5_theorem (result : Option PrimVal) (numFmt : Option String)
    (parseDates date1904 : Bool) (timeZone : Option Zone) :
    normalizeCellValue ⟨.formula result, numFmt⟩ parseDates date1904 timeZone =
      .ok (result.getD .null) :=
  rfl

/-- C6 (counterexample): a numeric date-formatted cell whose serial
cannot form a finite timestamp does not fall back to the raw number: with
a configured zone `normalizeCellValue` throws `Invalid date`, and without
a zone it returns an invalid (non-finite) date. -/
theorem C6_counterexample :
    normalizeCellValue ⟨.prim (.num 1000000000000000), some "yyyy"⟩ true false
        (some zoneHour) = .error "Invalid date" ∧
      normalizeCellValue ⟨.prim (.num 1000000000000000), some "yyyy"⟩ true false
        none = .ok (.date none) := by
  with_unfolding_all decide

/-- C6 (amended): the cell-format string is handled by a total regex scan
that never raises — any format without date-pattern letters (however
malformed) degrades to returning the raw number, under all option
combinations including a configured time zone; but a date-formatted
numeric cell whose serial cannot form a finite timestamp yields an
invalid (non-finite) date when no time zone is configured, and fails with
`Invalid date` when one is configured (whatever the zone). -/
theorem C6_theorem (q : ℚ) (fmt : String) (parseDates date1904 : Bool)
    (timeZone : Option Zone) (numFmt : Option String) (z : Zone)
    (hpass : (parseDates && numFmtIsDate numFmt) = false)
    (hfmt : isDateFormat fmt = true)
    (hover : excelSerialToDate q date1904 = none) :
    normalizeCellValue ⟨.prim (.num q), numFmt⟩ parseDates date1904 timeZone =
        .ok (.num q) ∧
      normalizeCellValue ⟨.prim (.num q), some fmt⟩ true date1904 none =
        .ok (.date none) ∧
      normalizeCellValue ⟨.prim (.num q), some fmt⟩ true date1904 (some z) =
        .error "Invalid date" := by
  refine ⟨?_, ?_, ?_⟩
  · simp [normalizeCellValue, hpass]
  · simp [normalizeCellValue, numFmtIsDate, hfmt, hover]
  · simp only [normalizeCellValue, numFmtIsDate, hfmt, Bool.and_true,
      Bool.true_and, if_true, hover]
    rfl

/-- C6 witness: serial 10^15 with the harmless format `0.00` passes
through as the raw number; with the date format `yyyy` it overflows and
produces the invalid-date outcomes. -/
theorem C6_witness :
    normalizeCellValue ⟨.prim (.num 1000000000000000), some "0.00"⟩ true false
        (some zoneHour) = .ok (.num 1000000000000000) ∧
      normalizeCellValue ⟨.prim (.num 1000000000000000), some "yyyy"⟩ true false
        none = .ok (.date none) ∧
      normalizeCellValue ⟨.prim (.num 1000000000000000), some "yyyy"⟩ true false
        (some zoneHour) = .error "Invalid date" :=
  C6_theorem 1000000000000000 "yyyy" true false (some zoneHour) (some "0.00")
    zoneHour (by decide) (by decide) (by with_unfolding_all decide)

/-! ## Batch processor: `runBatch` inside `processXlsxLarge`

`runBatch` iterates over the window's items in order. For each item it
creates `Promise.resolve().then(() => handler(item))`, adds the promise
to the `inFlight` set, and attaches a `.finally` that deletes it from the
set when it settles (success or failure). After each add, if
`inFlight.size >= concurrency` it awaits `Promise.race(inFlight)`; after
the loop it awaits `Promise.all(inFlight)`.

The JS semantics reflected in this transition system:
* the launch loop is synchronous between awaits, so handler settlements
  (microtasks) are observed only while the loop is suspended at
  `Promise.race` or `Promise.all`;
* `Promise.race` settles like the first of its promises to settle — a
  rejection there rejects the `await`, so `runBatch` rejects at once,
  without awaiting the other in-flight invocations (which keep running:
  no cancellation primitive exists);
* `Promise.all` rejects as soon as any of its promises rejects, likewise
  without awaiting the rest.

Items are identified by `Nat` ids and `beh` gives each handler
invocation's outcome. The control point is: `loop` (between launches),
`racing` (suspended at the race), `waitingAll` (suspended at the
wait-all), `doneOk`, or `doneErr e` — `runBatch` rejected with `e`, with
`inFlight` still holding the uncancelled, unawaited invocations. A
promise is added to `inFlight` before its handler starts and removed
only after it settles, so the number of started-but-not-yet-completed
handler invocations is bounded by `inFlight.length`. -/

inductive Outcome where
  | ok
  | err (e : Nat)
  deriving DecidableEq, Repr

inductive BatchCtrl where
  | loop
  | racing
  | waitingAll
  | doneOk
  | doneErr (e : Nat)
  deriving DecidableEq, Repr

structure BatchState where
  pending : List Nat
  inFlight : List Nat
  ctrl : BatchCtrl
  deriving DecidableEq, Repr

inductive BatchStep (N : Nat) (beh : Nat → Outcome) :
    BatchState → BatchState → Prop where
  | launch (x : Nat) (xs fl : List Nat) :
      BatchStep N beh ⟨x :: xs, fl, .loop⟩
        ⟨xs, fl ++ [x], if N ≤ fl.length + 1 then .racing else .loop⟩
  | startAll (fl : List Nat) :
      BatchStep N beh ⟨[], fl, .loop⟩ ⟨[], fl, .waitingAll⟩
  | raceOk (x : Nat) (p fl : List Nat) (hx : x ∈ fl) (ho : beh x = .ok) :
      BatchStep N beh ⟨p, fl, .racing⟩ ⟨p, fl.erase x, .loop⟩
  | raceErr (x : Nat) (p fl : List Nat) (e : Nat) (hx : x ∈ fl)
      (ho : beh x = .err e) :
      BatchStep N beh ⟨p, fl, .racing⟩ ⟨p, fl.erase x, .doneErr e⟩
  | allOk (x : Nat) (fl : List Nat) (hx : x ∈ fl) (ho : beh x = .ok) :
      BatchStep N beh ⟨[], fl, .waitingAll⟩
        ⟨[], fl.erase x, if fl.erase x = [] then .doneOk else .waitingAll⟩
  | allErr (x : Nat) (fl : List Nat) (e : Nat) (hx : x ∈ fl)
      (ho : beh x = .err e) :
      BatchStep N beh ⟨[], fl, .waitingAll⟩ ⟨[], fl.erase x, .doneErr e⟩

/-- `runBatch(items)` starts with every item pending, nothing in flight,
and the launch loop about to run. -/
def initBatch (items : List Nat) : BatchState := ⟨items, [], .loop⟩

/-- Reflexive-transitive closure of `BatchStep`. -/
inductive BatchReach (N : Nat) (beh : Nat → Outcome) :
    BatchState → BatchState → Prop where
  | refl (s : BatchState) : BatchReach N beh s s
  | tail {s t u : BatchState} : BatchReach N beh s t → BatchStep N beh t u →
      BatchReach N beh s u

/-- The admission invariant: never more than `N` in flight and, between
launches, strictly fewer than `N` (the loop only proceeds past an add
after a slot has freed). -/
def BatchInv (N : Nat) (s : BatchState) : Prop :=
  s.inFlight.length ≤ N ∧ (s.ctrl = .loop → s.inFlight.length < N)

theorem batchStep_inv {N : Nat} {beh : Nat → Outcome} {s t : BatchState}
    (h : BatchStep N beh s t) (hs : BatchInv N s) : BatchInv N t := by
  obtain ⟨hle, hloop⟩ := hs
  cases h with
  | launch x xs fl =>
    have hlt : fl.length < N := hloop rfl
    constructor
    · show (fl ++ [x]).length ≤ N
      rw [List.length_append, List.length_singleton]
      omega
    · intro hc
      show (fl ++ [x]).length < N
      rw [List.length_append, List.length_singleton]
      by_cases hN : N ≤ fl.length + 1
      · exact absurd hc (by simp [hN])
      · omega
  | startAll fl => exact ⟨hle, by intro hc; cases hc⟩
  | raceOk x p fl hx ho =>
    have hle' : fl.length ≤ N := hle
    have herase : (fl.erase x).length = fl.length - 1 :=
      List.length_erase_of_mem hx
    have hpos : 0 < fl.length := List.length_pos.mpr (List.ne_nil_of_mem hx)
    constructor
    · show (fl.erase x).length ≤ N
      omega
    · intro _
      show (fl.erase x).length < N
      omega
  | raceErr x p fl e hx ho =>
    have hle' : fl.length ≤ N := hle
    have herase : (fl.erase x).length = fl.length - 1 :=
      List.length_erase_of_mem hx
    exact ⟨by show (fl.erase x).length ≤ N; omega, by intro hc; cases hc⟩
  | allOk x fl hx ho =>
    have hle' : fl.length ≤ N := hle
    have herase : (fl.erase x).length = fl.length - 1 :=
      List.length_erase_of_mem hx
    constructor
    · show (fl.erase x).length ≤ N
      omega
    · intro hc
      by_cases hnil : fl.erase x = []
      · exact absurd hc (by simp [hnil])
      · exact absurd hc (by simp [hnil])
  | allErr x fl e hx ho =>
    have hle' : fl.length ≤ N := hle
    have herase : (fl.erase x).length = fl.length - 1 :=
      List.length_erase_of_mem hx
    exact ⟨by show (fl.erase x).length ≤ N; omega, by intro hc; cases hc⟩

theorem batchReach_inv {N : Nat} {beh : Nat → Outcome} {s t : BatchState}
    (h : BatchReach N beh s t) (hs : BatchInv N s) : BatchInv N t := by
  induction h with
  | refl => exact hs
  | tail hr hstep ih => exact batchStep_inv hstep ih

/-- C3: with `concurrency = N > 0`, every state reachable during a
window's execution has at most `N` promises in the in-flight set — so at
no point do more than `N` handler invocations exist in a
started-but-not-yet-completed state (membership is added at launch and
removed by the `.finally` on settlement, success or failure alike). -/
theorem C3_theorem (N : Nat) (beh : Nat → Outcome) (items : List Nat)
    (s : BatchState) (hN : 0 < N)
    (h : BatchReach N beh (initBatch items) s) :
    s.inFlight.length ≤ N :=
  (batchReach_inv h ⟨by simp [initBatch], fun _ => by simpa [initBatch] using hN⟩).1

/-- C3 witness: with `concurrency = 1`, after launching the only item
(one step from the initial state) the bound holds. -/
theorem C3_witness :
    0 < 1 ∧ (BatchState.mk [] [0] .racing).inFlight.length ≤ 1 :=
  ⟨Nat.one_pos,
    C3_theorem 1 (fun _ => .ok) [0] ⟨[], [0], .racing⟩ Nat.one_pos
      (.tail (.refl _) (.launch 0 [] []))⟩

/-- Handler behaviour for the C4 instance: item 10 fails with error 7,
everything else succeeds. -/
def c4beh : Nat → Outcome := fun x => if x = 10 then .err 7 else .ok

/-- C4 (counterexample): with `concurrency = 2` and window `[10, 20]`
where item 10's handler rejects first, `runBatch` rejects from the
`Promise.race` await with item 20 still in flight: the error surfaces
before the window's wait-all is ever entered and without awaiting the
remaining invocation (which stays running, uncancelled). -/
theorem C4_counterexample :
    BatchReach 2 c4beh (initBatch [10, 20]) ⟨[], [20], .doneErr 7⟩ ∧
      ([20] : List Nat) ≠ [] := by
  constructor
  · exact .tail
      (.tail (.tail (.refl _) (.launch 10 [20] [])) (.launch 20 [] [10]))
      (.raceErr 10 [] [10, 20] 7 (by decide) rfl)
  · decide

/-- C4 (amended): a failing window's error propagates to the caller at
the window's next synchronization point — either a concurrency-full
`Promise.race` await or the window's `Promise.all` — carrying the error
of a failed in-flight invocation; at that moment only the failing
invocation has been removed from the in-flight set, the remaining
same-window invocations are not cancelled (they stay in flight) but are
*not* awaited to completion before the error surfaces, no further row is
launched, and the rejected `runBatch` takes no further step. -/
theorem C4_theorem (N : Nat) (beh : Nat → Outcome) (s t : BatchState)
    (e : Nat) (hstep : BatchStep N beh s t) (ht : t.ctrl = .doneErr e) :
    (s.ctrl = .racing ∨ s.ctrl = .waitingAll) ∧
      (∃ x ∈ s.inFlight, beh x = .err e ∧ t.inFlight = s.inFlight.erase x) ∧
      t.pending = s.pending ∧
      ∀ u, ¬ BatchStep N beh t u := by
  have hterm : ∀ u, ¬ BatchStep N beh t u := by
    intro u hu
    cases hu <;> simp_all
  cases hstep with
  | launch x xs fl =>
    simp only at ht
    split at ht <;> cases ht
  | startAll fl => cases ht
  | raceOk x p fl hx ho => cases ht
  | raceErr x p fl e' hx ho =>
    cases ht
    exact ⟨Or.inl rfl, ⟨x, hx, ho, rfl⟩, rfl, hterm⟩
  | allOk x fl hx ho =>
    simp only at ht
    split at ht <;> cases ht
  | allErr x fl e' hx ho =>
    cases ht
    exact ⟨Or.inr rfl, ⟨x, hx, ho, rfl⟩, rfl, hterm⟩

/-- C4 witness: the amended statement at the concrete rejecting race
step of the C4 scenario. -/
theorem C4_witness :
    ((BatchState.mk [] [10, 20] .racing).ctrl = .racing ∨
        (BatchState.mk [] [10, 20] .racing).ctrl = .waitingAll) ∧
      (∃ x ∈ (BatchState.mk [] [10, 20] .racing).inFlight, c4beh x = .err 7 ∧
        (BatchState.mk [] [20] (.doneErr 7)).inFlight =
          (BatchState.mk [] [10, 20] .racing).inFlight.erase x) ∧
      (BatchState.mk [] [20] (.doneErr 7)).pending =
          (BatchState.mk [] [10, 20] .racing).pending ∧
      ∀ u, ¬ BatchStep 2 c4beh (BatchState.mk [] [20] (.doneErr 7)) u :=
  C4_theorem 2 c4beh ⟨[], [10, 20], .racing⟩ ⟨[], [20], .doneErr 7⟩ 7
    (.raceErr 10 [] [10, 20] 7 (by decide) rfl) rfl

/-! ## `processXlsxLarge`: argument validation and the batching loop -/

/-- The row-consumption loop of `processXlsxLarge` after validation:
rows are pulled from the source one at a time and pushed onto `batch`;
when the batch length reaches `batchSize` the window runs (`runB`
abstracts one `runBatch` execution — `none` means every handler
succeeded, `some e` the awaited rejection `e`, cf. `BatchStep`), and a
final partial window runs once the source is exhausted. The second
component counts the rows consumed from the source. -/
def processLoop (runB : List Nat → Option String) (batchSize : Int) :
    List Nat → List Nat → Nat → Option String × Nat
  | [], batch, consumed =>
    if 0 < batch.length then (runB batch, consumed) else (none, consumed)
  | r :: rest, batch, consumed =>
    let batch' := batch ++ [r]
    if batchSize ≤ (batch'.length : Int) then
      match runB batch' with
      | some e => (some e, consumed + 1)
      | none => processLoop runB batchSize rest [] (consumed + 1)
    else processLoop runB batchSize rest batch' (consumed + 1)

/-- `processXlsxLarge(input, handler, opts)`: validates `batchSize > 0`
then `concurrency > 0`, throwing before the row source is touched, and
otherwise runs the batching loop. -/
def processXlsxLargeRun (runB : List Nat → Option String)
    (batchSize concurrency : Int) (rows : List Nat) : Option String × Nat :=
  if batchSize ≤ 0 then (some "batchSize must be > 0", 0)
  else if concurrency ≤ 0 then (some "concurrency must be > 0", 0)
  else processLoop runB batchSize rows [] 0

/-- C9: calling `processXlsxLarge` with `batchSize ≤ 0` fails with the
`batchSize must be > 0` error, and with `batchSize > 0` but
`concurrency ≤ 0` with the `concurrency must be > 0` error — in both
cases eagerly, with zero rows consumed from the source, for every source
and handler. -/
theorem C9_theorem (runB : List Nat → Option String)
    (bA cA : Int) (rowsA : List Nat) (hA : bA ≤ 0)
    (bB cB : Int) (rowsB : List Nat) (hB : 0 < bB) (hC : cB ≤ 0) :
    processXlsxLargeRun runB bA cA rowsA = (some "batchSize must be > 0", 0) ∧
      processXlsxLargeRun runB bB cB rowsB =
        (some "concurrency must be > 0", 0) := by
  constructor
  · simp [processXlsxLargeRun, hA]
  · simp [processXlsxLargeRun, not_le.mpr hB, hC]

/-- C9 witness: `batchSize = 0` (and, for the second error,
`concurrency = 0`) on a nonempty source. -/
theorem C9_witness :
    processXlsxLargeRun (fun _ => none) 0 8 [1, 2] =
        (some "batchSize must be > 0", 0) ∧
      processXlsxLargeRun (fun _ => none) 2000 0 [1, 2] =
        (some "concurrency must be > 0", 0) :=
  C9_theorem (fun _ => none) 0 8 [1, 2] (by decide) 2000 0 [1, 2] (by decide)
    (by decide)

/-! ## Row materialization (`xlsxToObjects`)

The ExcelJS worksheet stream is the external cell-stream source: per
worksheet, an ordered sequence of rows, each with a 1-based row number
and a sparse cell list. The model covers one worksheet's row sequence
(the `sheetName` filter and the multi-worksheet loop only select which
rows reach this pipeline). -/

/-- A worksheet row: 1-based `number`, and the cells of
`row.values.slice(1)` (index `i` holds the cell of column `i + 1`;
sparse slots appear as null cells). -/
structure Row where
  number : Int
  cells : List Cell
  deriving DecidableEq, Repr

/-- A missing cell: `row.getCell` on an absent position reads as a
null-valued, unformatted cell. -/
def emptyCell : Cell := ⟨.prim .null, none⟩

/-- `getRowValues(row) = row.values.slice(1)`: raw cell values. -/
def getRowValues (row : Row) : List CellVal := row.cells.map (·.value)

/-- `row.getCell(i + 1)` for 0-based `i`. -/
def getCell (row : Row) (i : Nat) : Cell := row.cells.getD i emptyCell

/-- The JS per-value emptiness test `value == null || value === ''`. -/
def isEmptyCellVal (v : CellVal) : Bool :=
  match v with
  | .prim .null => true
  | .prim (.str s) => s = ""
  | _ => false

/-- `isEmptyRow(values)`: every raw value is null/undefined or `''`. -/
def isEmptyRow (values : List CellVal) : Bool := values.all isEmptyCellVal

/-- Modelled JS number rendering (template-literal `${value}`): exact for
integers, the only case the pipeline claims exercise; a non-integral
rational renders as `num/den`. -/
def ratToString (q : ℚ) : String :=
  if q.den = 1 then toString q.num else toString q.num ++ "/" ++ toString q.den

/-- Modelled `Date.prototype.toISOString` (zero-padded UTC fields). -/
def pad2 (n : Int) : String := (if n < 10 then "0" else "") ++ toString n

def pad3 (n : Int) : String :=
  (if n < 10 then "00" else if n < 100 then "0" else "") ++ toString n

def isoString (t : Int) : String :=
  let p := civilFromMillis t
  toString p.year ++ "-" ++ pad2 p.month ++ "-" ++ pad2 p.day ++ "T" ++
    pad2 p.hour ++ ":" ++ pad2 p.minute ++ ":" ++ pad2 p.second ++ "." ++
    pad3 p.millisecond ++ "Z"

/-- `headerValueToString` on plain (non-formula) values: null → `''`,
strings as-is, numbers/booleans via template literal, dates via
`toISOString` (an invalid date is modelled as `''`: `toISOString` raising
on a NaN time value is outside the claims, and an empty header falls back
to the positional default), rich text flattened to its concatenated text. -/
def primHeaderToString : PrimVal → String
  | .null => ""
  | .str s => s
  | .num q => ratToString q
  | .bool b => if b then "true" else "false"
  | .date (some t) => isoString t
  | .date none => ""
  | .rich parts => String.join parts

/-- `headerValueToString(value)`: a formula object with a defined cached
result stringifies its result; one without (or with a null result)
stringifies to `''`. -/
def headerValueToString : CellVal → String
  | .prim v => primHeaderToString v
  | .formula (some v) => primHeaderToString v
  | .formula none => ""

/-- Modelled `String.prototype.trim`: drop leading and trailing
whitespace (the JS Unicode white-space set is modelled by
`Char.isWhitespace`). -/
def jsTrim (s : String) : String :=
  let cs := s.toList.dropWhile Char.isWhitespace
  String.mk ((cs.reverse.dropWhile Char.isWhitespace).reverse)

/-- The `XlsxReadOptions` relevant to the pipeline, with the source's
defaults (the reader cache modes only tune the external codec). -/
structure ReadOpts where
  headerRowNumber : Int := 1
  trimHeaders : Bool := true
  trimTextValues : Bool := false
  trimTextColumns : List String := []
  arrayColumns : List String := []
  arrayDelimiter : String := ","
  trimArrayItems : Bool := true
  removeEmptyArrayItems : Bool := true
  skipEmptyRows : Bool := true
  normalizeHeader : String → Nat → String := fun header _ => header
  parseDates : Bool := true
  date1904 : Bool := false
  timeZone : Option Zone := none

/-- The header-resolution `values.map((value, index) => ...)`: stringify,
optionally trim, apply the caller's rename function, and default a falsy
(empty) result to `column_<index + 1>`. -/
def resolveHeadersAux (opts : ReadOpts) : List CellVal → Nat → List String
  | [], _ => []
  | value :: rest, index =>
    let header := headerValueToString value
    let header := if opts.trimHeaders then jsTrim header else header
    let header := opts.normalizeHeader header index
    (if header = "" then "column_" ++ toString (index + 1) else header) ::
      resolveHeadersAux opts rest (index + 1)

def resolveHeaders (opts : ReadOpts) (values : List CellVal) : List String :=
  resolveHeadersAux opts values 0

/-- A normalized row value: either a single value or, for array columns,
a list of values. -/
inductive NVal where
  | v (p : PrimVal)
  | list (items : List PrimVal)
  deriving DecidableEq, Repr

/-- `maybeTrimTextValue`: trim only string values, only when enabled. -/
def maybeTrimTextValue (value : PrimVal) (trimTextValues : Bool) : PrimVal :=
  if !trimTextValues then value
  else
    match value with
    | .str s => .str (jsTrim s)
    | v => v

/-- `shouldTrimColumn`: globally enabled, or the column is listed. -/
def shouldTrimColumn (trimTextValues : Bool) (trimTextColumns : List String)
    (columnName : String) : Bool :=
  if trimTextValues then true else trimTextColumns.contains columnName

/-- `maybeConvertToArray`: for designated array columns, null/empty
becomes `[]`, a string is split on the delimiter (with optional per-item
trim and empty-item removal), and a non-string value becomes a singleton
(cell values are never JS arrays, so the `Array.isArray` passthrough
branch has no inhabitant here). `String.splitOn` matches the JS
`String.prototype.split` for the nonempty delimiters the options use. -/
def maybeConvertToArray (value : PrimVal) (shouldConvert : Bool)
    (delimiter : String) (trimItems removeEmpty : Bool) : NVal :=
  if !shouldConvert then .v value
  else
    match value with
    | .null => .list []
    | .str s =>
      if s = "" then .list []
      else
        let items := s.splitOn delimiter
        let items := if trimItems then items.map jsTrim else items
        let items := if removeEmpty then items.filter (fun i => 0 < i.length)
          else items
        .list (items.map PrimVal.str)
    | v => .list [v]

/-- The per-column body of the data-row loop: read the cell at position
`i + 1`, normalize it, then trim and array-convert. -/
def buildCellVal (opts : ReadOpts) (row : Row) (columnName : String)
    (i : Nat) : Except String NVal := do
  let normalizedValue ← normalizeCellValue (getCell row i) opts.parseDates
    opts.date1904 opts.timeZone
  let trimmedValue := maybeTrimTextValue normalizedValue
    (shouldTrimColumn opts.trimTextValues opts.trimTextColumns columnName)
  .ok (maybeConvertToArray trimmedValue (opts.arrayColumns.contains columnName)
    opts.arrayDelimiter opts.trimArrayItems opts.removeEmptyArrayItems)

/-- A row object: a JS object as an assoc list in key-insertion order. -/
abbrev RowObj := List (String × NVal)

/-- JS property assignment `obj[k] = v`: update in place when the key
exists (keeping its position), else append. -/
def objInsert (obj : RowObj) (k : String) (val : NVal) : RowObj :=
  if obj.any (fun p => p.1 == k) then
    obj.map (fun p => if p.1 == k then (k, val) else p)
  else obj ++ [(k, val)]

/-- JS property read `obj[k]`. -/
def objLookup (obj : RowObj) (k : String) : Option NVal :=
  (obj.find? (fun p => p.1 == k)).map (fun p => p.2)

/-- The data-row loop `for (let i = 0; i < headers.length; i += 1)`,
threading the column position and the object under construction. -/
def processRowAux (opts : ReadOpts) (row : Row) :
    List String → Nat → RowObj → Except String RowObj
  | [], _, obj => .ok obj
  | columnName :: rest, i, obj => do
    let val ← buildCellVal opts row columnName i
    processRowAux opts row rest (i + 1) (objInsert obj columnName val)

/-- One data row materialized against the resolved headers. -/
def processRow (opts : ReadOpts) (headers : List String) (row : Row) :
    Except String RowObj :=
  processRowAux opts row headers 0 []

/-- The per-worksheet row loop of `xlsxToObjects`: skip empty rows (when
enabled) before anything else; a row numbered `headerRowNumber` resolves
the headers; rows before header resolution are dropped; afterwards each
row becomes an object. -/
def xlsxLoop (opts : ReadOpts) :
    Option (List String) → List Row → Except String (List RowObj)
  | _, [] => .ok []
  | headers, row :: rest =>
    let values := getRowValues row
    if opts.skipEmptyRows && isEmptyRow values then xlsxLoop opts headers rest
    else if row.number = opts.headerRowNumber then
      xlsxLoop opts (some (resolveHeaders opts values)) rest
    else
      match headers with
      | none => xlsxLoop opts none rest
      | some hs => do
        let obj ← processRow opts hs row
        let tail ← xlsxLoop opts (some hs) rest
        .ok (obj :: tail)

/-- `xlsxToObjects(input, opts)`: validates a configured time zone up
front, then runs the row loop with no headers resolved. -/
def xlsxToObjects (opts : ReadOpts) (rows : List Row) :
    Except String (List RowObj) :=
  match opts.timeZone with
  | some z => do
    let _ ← assertValidTimeZone z
    xlsxLoop opts none rows
  | none => xlsxLoop opts none rows

/-! ## C7: the empty-row policy -/

/-- With `skipEmptyRows` enabled, the loop's output is unchanged by
pre-deleting every all-empty row: the emptiness test fires before the
header/data classification, whatever the header state. -/
theorem xlsxLoop_skip_filter (opts : ReadOpts)
    (hskip : opts.skipEmptyRows = true) :
    ∀ (rows : List Row) (headers : Option (List String)),
      xlsxLoop opts headers rows =
        xlsxLoop opts headers
          (rows.filter fun r => !isEmptyRow (getRowValues r)) := by
  intro rows
  induction rows with
  | nil => intro headers; rfl
  | cons r rest ih =>
    intro headers
    by_cases hemp : isEmptyRow (getRowValues r) = true
    · simp only [xlsxLoop, List.filter_cons, hemp, hskip, Bool.and_self,
        Bool.not_true, if_true, if_false, Bool.false_eq_true]
      exact ih headers
    · have hemp' : isEmptyRow (getRowValues r) = false :=
        Bool.eq_false_iff.mpr hemp
      simp only [xlsxLoop, List.filter_cons, hemp', hskip, Bool.and_false,
        Bool.not_false, if_true, Bool.false_eq_true, if_false]
      by_cases hnum : r.number = opts.headerRowNumber
      · simp only [hnum, if_true]
        exact ih _
      · simp only [if_neg hnum]
        match headers with
        | none => exact ih none
        | some hs => simp only [ih (some hs)]

/-- A raw value passing the JS emptiness test is null or the empty
string, and its full per-column pipeline cannot fail and yields a
null/empty/empty-array result, under every option combination. -/
theorem buildCellVal_empty (opts : ReadOpts) (row : Row) (columnName : String)
    (i : Nat) (h : isEmptyCellVal (getCell row i).value = true) :
    ∃ val, buildCellVal opts row columnName i = .ok val ∧
      (val = .v .null ∨ val = .v (.str "") ∨ val = .list []) := by
  rcases hv : (getCell row i).value with v | res
  · cases v with
    | null =>
      refine ⟨maybeConvertToArray
        (maybeTrimTextValue .null
          (shouldTrimColumn opts.trimTextValues opts.trimTextColumns columnName))
        (opts.arrayColumns.contains columnName) opts.arrayDelimiter
        opts.trimArrayItems opts.removeEmptyArrayItems, ?_, ?_⟩
      · simp only [buildCellVal, normalizeCellValue, hv]
        rfl
      · cases htrim : shouldTrimColumn opts.trimTextValues opts.trimTextColumns
          columnName <;>
          cases hconv : opts.arrayColumns.contains columnName <;>
            simp [maybeTrimTextValue, maybeConvertToArray, hconv]
    | str s =>
      have hs : s = "" := by
        simpa [isEmptyCellVal, hv] using h
      subst hs
      refine ⟨maybeConvertToArray
        (maybeTrimTextValue (.str "")
          (shouldTrimColumn opts.trimTextValues opts.trimTextColumns columnName))
        (opts.arrayColumns.contains columnName) opts.arrayDelimiter
        opts.trimArrayItems opts.removeEmptyArrayItems, ?_, ?_⟩
      · simp only [buildCellVal, normalizeCellValue, hv]
        rfl
      · have htrim : jsTrim "" = "" := by decide
        cases ht : shouldTrimColumn opts.trimTextValues opts.trimTextColumns
          columnName <;>
          cases hconv : opts.arrayColumns.contains columnName <;>
            simp [maybeTrimTextValue, maybeConvertToArray, hconv, htrim]
    | num q => simp [isEmptyCellVal, hv] at h
    | bool b => simp [isEmptyCellVal, hv] at h
    | date d => simp [isEmptyCellVal, hv] at h
    | rich parts => simp [isEmptyCellVal, hv] at h
  · simp [isEmptyCellVal, hv] at h

/-- Membership in an updated object comes from the old object or is the
assigned pair. -/
theorem objInsert_mem {obj : RowObj} {k : String} {val : NVal} {kv} :
    kv ∈ objInsert obj k val → kv ∈ obj ∨ kv = (k, val) := by
  unfold objInsert
  split
  · intro hm
    obtain ⟨p, hp, hpe⟩ := List.mem_map.mp hm
    by_cases hk : (p.1 == k) = true
    · right
      rw [if_pos hk] at hpe
      exact hpe.symm
    · left
      rw [if_neg hk] at hpe
      exact hpe ▸ hp
  · intro hm
    rcases List.mem_append.mp hm with hm | hm
    · exact Or.inl hm
    · exact Or.inr (List.mem_singleton.mp hm)

/-- If every cell read by the loop is empty and every accumulated value
is nullish, the loop succeeds and every value of the result is nullish. -/
theorem processRowAux_empty (opts : ReadOpts) (row : Row)
    (hrow : ∀ i, isEmptyCellVal (getCell row i).value = true) :
    ∀ (hs : List String) (i : Nat) (obj : RowObj),
      (∀ kv ∈ obj, kv.2 = NVal.v .null ∨ kv.2 = NVal.v (.str "") ∨
        kv.2 = NVal.list []) →
      ∃ obj', processRowAux opts row hs i obj = .ok obj' ∧
        ∀ kv ∈ obj', kv.2 = NVal.v .null ∨ kv.2 = NVal.v (.str "") ∨
          kv.2 = NVal.list [] := by
  intro hs
  induction hs with
  | nil => exact fun i obj hobj => ⟨obj, rfl, hobj⟩
  | cons columnName rest ih =>
    intro i obj hobj
    obtain ⟨val, hval, hnil⟩ := buildCellVal_empty opts row columnName i (hrow i)
    have hobj' : ∀ kv ∈ objInsert obj columnName val,
        kv.2 = NVal.v .null ∨ kv.2 = NVal.v (.str "") ∨ kv.2 = NVal.list [] := by
      intro kv hkv
      rcases objInsert_mem hkv with hkv | hkv
      · exact hobj kv hkv
      · rw [hkv]
        exact hnil
    obtain ⟨obj', hrec, hres⟩ := ih (i + 1) (objInsert obj columnName val) hobj'
    refine ⟨obj', ?_, hres⟩
    simp only [processRowAux, hval]
    exact hrec

/-- An all-empty row has every read position empty (positions past the
cell list read as missing, hence null). -/
theorem emptyRow_cells (row : Row) (h : isEmptyRow (getRowValues row) = true) :
    ∀ i, isEmptyCellVal (getCell row i).value = true := by
  intro i
  by_cases hi : i < row.cells.length
  · have hmem : getCell row i ∈ row.cells := by
      unfold getCell
      rw [List.getD_eq_getElem row.cells emptyCell hi]
      exact List.getElem_mem hi
    have := List.all_eq_true.mp h (getCell row i).value
      (List.mem_map.mpr ⟨getCell row i, hmem, rfl⟩)
    exact this
  · unfold getCell
    rw [List.getD_eq_default row.cells emptyCell (Nat.le_of_not_lt hi)]
    rfl

/-- C7: with `skipEmptyRows = true` the loop's result equals the result
on the source with every all-empty row deleted — the emptiness test runs
on raw cell values before normalization and before the header/data
classification, so an all-empty row is absent from the output and an
all-empty row at the header row number does not become the header; with
`skipEmptyRows = false` an all-empty data row is present in the output,
as a record whose every value is null, the empty string, or the empty
array. -/
theorem C7_theorem (optsT optsF : ReadOpts) (rows : List Row)
    (hs : List String) (er : Row) (rest : List Row)
    (hT : optsT.skipEmptyRows = true) (hF : optsF.skipEmptyRows = false)
    (hemp : isEmptyRow (getRowValues er) = true)
    (hnum : er.number ≠ optsF.headerRowNumber) :
    xlsxToObjects optsT rows =
        xlsxToObjects optsT (rows.filter fun r => !isEmptyRow (getRowValues r)) ∧
      ∃ obj, processRow optsF hs er = .ok obj ∧
        xlsxLoop optsF (some hs) (er :: rest) =
          (xlsxLoop optsF (some hs) rest).bind (fun tail => .ok (obj :: tail)) ∧
        ∀ kv ∈ obj, kv.2 = NVal.v .null ∨ kv.2 = NVal.v (.str "") ∨
          kv.2 = NVal.list [] := by
  constructor
  · unfold xlsxToObjects
    match optsT.timeZone with
    | some z => simp only [xlsxLoop_skip_filter optsT hT rows none]
    | none => exact xlsxLoop_skip_filter optsT hT rows none
  · obtain ⟨obj, hok, hnil⟩ :=
      processRowAux_empty optsF er (emptyRow_cells er hemp) hs 0 []
        (by intro kv hkv; cases hkv)
    have hok2 : processRow optsF hs er = .ok obj := hok
    refine ⟨obj, hok2, ?_, hnil⟩
    simp only [xlsxLoop, hF, hemp, Bool.false_and, Bool.false_eq_true,
      if_false, if_neg hnum]
    simp only [hok2]
    rfl

/-- C7 witness: a three-row sheet (header, all-empty row, data row). With
the default options the empty row is filtered out; with `skipEmptyRows :=
false` the empty row materializes as a nullish record. -/
theorem C7_witness :
    xlsxToObjects {} [⟨1, [⟨.prim (.str "a"), none⟩]⟩,
          ⟨2, [⟨.prim .null, none⟩, ⟨.prim (.str ""), none⟩]⟩,
          ⟨3, [⟨.prim (.str "x"), none⟩]⟩] =
        xlsxToObjects {}
          (([⟨1, [⟨.prim (.str "a"), none⟩]⟩,
              ⟨2, [⟨.prim .null, none⟩, ⟨.prim (.str ""), none⟩]⟩,
              ⟨3, [⟨.prim (.str "x"), none⟩]⟩] : List Row).filter
            fun r => !isEmptyRow (getRowValues r)) ∧
      ∃ obj, processRow { skipEmptyRows := false } ["a"]
            ⟨2, [⟨.prim .null, none⟩, ⟨.prim (.str ""), none⟩]⟩ = .ok obj ∧
        xlsxLoop { skipEmptyRows := false } (some ["a"])
            [⟨2, [⟨.prim .null, none⟩, ⟨.prim (.str ""), none⟩]⟩,
              ⟨3, [⟨.prim (.str "x"), none⟩]⟩] =
          (xlsxLoop { skipEmptyRows := false } (some ["a"])
              [⟨3, [⟨.prim (.str "x"), none⟩]⟩]).bind
            (fun tail => .ok (obj :: tail)) ∧
        ∀ kv ∈ obj, kv.2 = NVal.v .null ∨ kv.2 = NVal.v (.str "") ∨
          kv.2 = NVal.list [] :=
  C7_theorem {} { skipEmptyRows := false }
    [⟨1, [⟨.prim (.str "a"), none⟩]⟩,
      ⟨2, [⟨.prim .null, none⟩, ⟨.prim (.str ""), none⟩]⟩,
      ⟨3, [⟨.prim (.str "x"), none⟩]⟩]
    ["a"] ⟨2, [⟨.prim .null, none⟩, ⟨.prim (.str ""), none⟩]⟩
    [⟨3, [⟨.prim (.str "x"), none⟩]⟩] rfl rfl (by decide) (by decide)

/-! ## C10: shape of emitted row objects -/

/-- Inversion for a successful `Except` bind. -/
theorem except_bind_ok {α β : Type} {x : Except String α}
    {f : α → Except String β} {b : β} (h : x >>= f = .ok b) :
    ∃ a, x = .ok a ∧ f a = .ok b := by
  cases x with
  | error e => exact Except.noConfusion h
  | ok a => exact ⟨a, rfl, h⟩

/-- In-place update does not change the key sequence. -/
theorem objUpdate_keys (obj : RowObj) (k : String) (val : NVal) :
    (obj.map fun p => if p.1 == k then (k, val) else p).map Prod.fst =
      obj.map Prod.fst := by
  induction obj with
  | nil => rfl
  | cons p rest ih =>
    by_cases hk : (p.1 == k) = true
    · simp only [List.map_cons, if_pos hk, ih]
      rw [eq_of_beq hk]
    · simp only [List.map_cons, if_neg hk, ih]

/-- Key membership after an assignment. -/
theorem objInsert_keys_mem (obj : RowObj) (k : String) (val : NVal)
    (key : String) :
    key ∈ (objInsert obj k val).map Prod.fst ↔
      key ∈ obj.map Prod.fst ∨ key = k := by
  unfold objInsert
  split
  · next hany =>
    rw [objUpdate_keys]
    constructor
    · exact Or.inl
    · rintro (h | rfl)
      · exact h
      · obtain ⟨p, hp, hpk⟩ := List.any_eq_true.mp hany
        exact List.mem_map.mpr ⟨p, hp, eq_of_beq hpk⟩
  · rw [List.map_append]
    simp [List.mem_append, List.mem_singleton]

/-- Assignment preserves key uniqueness. -/
theorem objInsert_keys_nodup {obj : RowObj} {k : String} {val : NVal}
    (h : (obj.map Prod.fst).Nodup) :
    ((objInsert obj k val).map Prod.fst).Nodup := by
  unfold objInsert
  split
  · next hany => rw [objUpdate_keys]; exact h
  · next hany =>
    rw [List.map_append]
    refine List.Nodup.append h (List.nodup_singleton k) ?_
    intro a ha hb
    rw [List.mem_singleton.mp hb] at ha
    obtain ⟨p, hp, hpk⟩ := List.mem_map.mp ha
    exact hany (List.any_eq_true.mpr ⟨p, hp, by simp [hpk]⟩)

/-- Reading back the just-assigned key. -/
theorem objLookup_insert_self (obj : RowObj) (k : String) (val : NVal) :
    objLookup (objInsert obj k val) k = some val := by
  unfold objInsert objLookup
  split
  · next hany =>
    induction obj with
    | nil => cases hany
    | cons p rest ih =>
      by_cases hk : (p.1 == k) = true
      · simp [List.find?, hk]
      · have hrest : rest.any (fun p => p.1 == k) = true := by
          rcases List.any_eq_true.mp hany with ⟨q, hq, hqk⟩
          rcases List.mem_cons.mp hq with rfl | hq
          · exact absurd hqk hk
          · exact List.any_eq_true.mpr ⟨q, hq, hqk⟩
        simpa [List.find?, if_neg hk, hk] using ih hrest
  · next hany =>
    induction obj with
    | nil => simp [List.find?]
    | cons p rest ih =>
      have hk : (p.1 == k) = false := by
        cases hpk : (p.1 == k) with
        | false => rfl
        | true =>
          exact absurd
            (List.any_eq_true.mpr ⟨p, List.mem_cons_self p rest, hpk⟩) hany
      have hrest : ¬ rest.any (fun p => p.1 == k) = true := by
        intro hc
        rcases List.any_eq_true.mp hc with ⟨q, hq, hqk⟩
        exact hany (List.any_eq_true.mpr ⟨q, List.mem_cons_of_mem p hq, hqk⟩)
      simpa [List.find?, hk] using ih hrest

/-- An in-place update leaves `find?` for a different key unchanged. -/
theorem find_update_ne (obj : RowObj) (k : String) (val : NVal) (key : String)
    (hbk : (k == key) = false) :
    (obj.map fun p => if p.1 == k then (k, val) else p).find?
        (fun p => p.1 == key) = obj.find? (fun p => p.1 == key) := by
  induction obj with
  | nil => rfl
  | cons p rest ih =>
    simp only [List.map_cons]
    by_cases hk : (p.1 == k) = true
    · have hpkey : (p.1 == key) = false := by
        rw [eq_of_beq hk]
        exact hbk
      rw [if_pos hk]
      simp only [List.find?, hbk, hpkey]
      exact ih
    · rw [if_neg hk]
      by_cases hpkey : (p.1 == key) = true
      · simp only [List.find?, hpkey]
      · have hpkey2 : (p.1 == key) = false := Bool.not_eq_true _ ▸ hpkey
        simp only [List.find?, hpkey2]
        exact ih

/-- Appending a pair with a different key leaves `find?` unchanged. -/
theorem find_append_ne (obj : RowObj) (k : String) (val : NVal) (key : String)
    (hbk : (k == key) = false) :
    (obj ++ [(k, val)]).find? (fun p => p.1 == key) =
      obj.find? (fun p => p.1 == key) := by
  induction obj with
  | nil =>
    simp only [List.nil_append, List.find?, hbk]
  | cons p rest ih =>
    simp only [List.cons_append]
    by_cases hpkey : (p.1 == key) = true
    · simp only [List.find?, hpkey]
    · have hpkey2 : (p.1 == key) = false := Bool.not_eq_true _ ▸ hpkey
      simp only [List.find?, hpkey2]
      exact ih

/-- Reading any other key is unaffected by an assignment. -/
theorem objLookup_insert_ne (obj : RowObj) (k : String) (val : NVal)
    (key : String) (hne : key ≠ k) :
    objLookup (objInsert obj k val) key = objLookup obj key := by
  have hbk : (k == key) = false := by
    simp only [beq_eq_false_iff_ne, ne_eq]
    exact fun h => hne h.symm
  unfold objInsert objLookup
  split
  · rw [find_update_ne obj k val key hbk]
  · rw [find_append_ne obj k val key hbk]

/-- A successful run of the data-row loop: the result's keys are the
accumulated keys plus the traversed headers, and key uniqueness is
preserved. -/
theorem processRowAux_ok_keys (opts : ReadOpts) (row : Row) :
    ∀ (hs : List String) (i : Nat) (obj obj' : RowObj),
      processRowAux opts row hs i obj = .ok obj' →
      (∀ key, key ∈ obj'.map Prod.fst ↔ key ∈ obj.map Prod.fst ∨ key ∈ hs) ∧
        ((obj.map Prod.fst).Nodup → (obj'.map Prod.fst).Nodup) := by
  intro hs
  induction hs with
  | nil =>
    intro i obj obj' h
    cases h
    exact ⟨fun key => by simp, id⟩
  | cons name rest ih =>
    intro i obj obj' h
    obtain ⟨val, hval, hrec⟩ := except_bind_ok h
    obtain ⟨hkeys, hnodup⟩ := ih (i + 1) (objInsert obj name val) obj' hrec
    constructor
    · intro key
      rw [hkeys key, objInsert_keys_mem]
      simp only [List.mem_cons]
      tauto
    · intro hn
      exact hnodup (objInsert_keys_nodup hn)

/-- Keys outside the traversed headers read back unchanged. -/
theorem processRowAux_lookup_notmem (opts : ReadOpts) (row : Row) :
    ∀ (hs : List String) (i : Nat) (obj obj' : RowObj),
      processRowAux opts row hs i obj = .ok obj' →
      ∀ key, key ∉ hs → objLookup obj' key = objLookup obj key := by
  intro hs
  induction hs with
  | nil =>
    intro i obj obj' h key _
    cases h
    rfl
  | cons name rest ih =>
    intro i obj obj' h key hkey
    obtain ⟨val, hval, hrec⟩ := except_bind_ok h
    have hne : key ≠ name := fun hc => hkey (hc ▸ List.mem_cons_self name rest)
    have hrest : key ∉ rest := fun hc => hkey (List.mem_cons_of_mem name hc)
    rw [ih (i + 1) _ obj' hrec key hrest,
      objLookup_insert_ne obj name val key hne]

/-- The value stored under a key is the one computed at that key's last
occurrence among the headers. -/
theorem processRowAux_lookup_last (opts : ReadOpts) (row : Row) :
    ∀ (l1 : List String) (k : String) (l2 : List String) (i : Nat)
      (obj obj' : RowObj), k ∉ l2 →
      processRowAux opts row (l1 ++ k :: l2) i obj = .ok obj' →
      ∃ val, buildCellVal opts row k (i + l1.length) = .ok val ∧
        objLookup obj' k = some val := by
  intro l1
  induction l1 with
  | nil =>
    intro k l2 i obj obj' hk h
    obtain ⟨val, hval, hrec⟩ := except_bind_ok h
    refine ⟨val, by simpa using hval, ?_⟩
    rw [processRowAux_lookup_notmem opts row l2 (i + 1) _ obj' hrec k hk]
    exact objLookup_insert_self obj k val
  | cons a l1' ih =>
    intro k l2 i obj obj' hk h
    obtain ⟨val, hval, hrec⟩ := except_bind_ok h
    obtain ⟨v, hv, hlook⟩ := ih k l2 (i + 1) _ obj' hk hrec
    refine ⟨v, ?_, hlook⟩
    have harith : i + 1 + l1'.length = i + (a :: l1').length := by
      simp only [List.length_cons]
      omega
    rw [← harith]
    exact hv

/-- `getD` through a long-enough `take`. -/
theorem getD_take {α : Type} (l : List α) (d : α) :
    ∀ (n i : Nat), i < n → (l.take n).getD i d = l.getD i d := by
  induction l with
  | nil => intro n i _; simp
  | cons a rest ih =>
    intro n i h
    cases n with
    | zero => omega
    | succ m =>
      cases i with
      | zero => simp
      | succ j => simpa using ih m j (by omega)

/-- The loop reads only cell positions below `i + hs.length`: truncating
the row there does not change the outcome. -/
theorem processRowAux_take (opts : ReadOpts) :
    ∀ (hs : List String) (row : Row) (i : Nat) (obj : RowObj),
      processRowAux opts row hs i obj =
        processRowAux opts ⟨row.number, row.cells.take (i + hs.length)⟩ hs i
          obj := by
  intro hs
  induction hs with
  | nil => intro row i obj; rfl
  | cons name rest ih =>
    intro row i obj
    have hcell :
        getCell ⟨row.number, row.cells.take (i + (name :: rest).length)⟩ i =
          getCell row i := by
      unfold getCell
      exact getD_take row.cells emptyCell _ i (by simp [List.length_cons])
    have hbuild : ∀ cn,
        buildCellVal opts
            ⟨row.number, row.cells.take (i + (name :: rest).length)⟩ cn i =
          buildCellVal opts row cn i := by
      intro cn
      unfold buildCellVal
      rw [hcell]
    show (buildCellVal opts row name i) >>= _ =
      (buildCellVal opts ⟨row.number, row.cells.take (i + (name :: rest).length)⟩
        name i) >>= _
    rw [hbuild]
    cases hb : buildCellVal opts row name i with
    | error e => rfl
    | ok val =>
      show processRowAux opts row rest (i + 1) (objInsert obj name val) =
        processRowAux opts
          ⟨row.number, row.cells.take (i + (name :: rest).length)⟩ rest (i + 1)
          (objInsert obj name val)
      rw [ih row (i + 1),
        ih ⟨row.number, row.cells.take (i + (name :: rest).length)⟩ (i + 1)]
      have harith : i + (name :: rest).length = i + 1 + rest.length := by
        simp only [List.length_cons]
        omega
      simp only [harith, List.take_take, Nat.min_self]

/-- C10: for every emitted row object, (a) only the cell positions `1 ..
headers.length` are read — truncating the source row there leaves the
result unchanged, so data cells beyond the header's length are silently
dropped; (b) the object's keys are pairwise distinct; (c) its key set is
exactly the set of resolved header names; (d) the value under a name is
the one computed at that name's *last* occurrence among the headers, so
with duplicated header names the later column overwrites the earlier and
the record carries a single key for that name. -/
theorem C10_theorem (opts : ReadOpts) (hs : List String) (row : Row)
    (obj : RowObj) (h : processRow opts hs row = .ok obj) :
    processRow opts hs row =
        processRow opts hs ⟨row.number, row.cells.take hs.length⟩ ∧
      (obj.map Prod.fst).Nodup ∧
      (∀ key, key ∈ obj.map Prod.fst ↔ key ∈ hs) ∧
      ∀ (l1 : List String) (k : String) (l2 : List String),
        hs = l1 ++ k :: l2 → k ∉ l2 →
        ∃ val, buildCellVal opts row k l1.length = .ok val ∧
          objLookup obj k = some val := by
  refine ⟨?_, ?_, ?_, ?_⟩
  · have := processRowAux_take opts hs row 0 []
    simpa [processRow] using this
  · exact (processRowAux_ok_keys opts row hs 0 [] obj h).2 (by simp)
  · intro key
    have := (processRowAux_ok_keys opts row hs 0 [] obj h).1 key
    simpa using this
  · intro l1 k l2 hdecomp hk
    have := processRowAux_lookup_last opts row l1 k l2 0 [] obj hk
      (by rw [← hdecomp]; exact h)
    simpa using this

/-- C10 witness: duplicated header name `a` over a four-cell row — only
the first three cells are read, the keys are `["a", "b"]`, and `a` holds
the third column's value. -/
theorem C10_witness :
    processRow {} ["a", "b", "a"] ⟨2, [⟨.prim (.str "c1"), none⟩,
          ⟨.prim (.str "c2"), none⟩, ⟨.prim (.str "c3"), none⟩,
          ⟨.prim (.str "c4"), none⟩]⟩ =
        processRow {} ["a", "b", "a"] ⟨2, ([⟨.prim (.str "c1"), none⟩,
          ⟨.prim (.str "c2"), none⟩, ⟨.prim (.str "c3"), none⟩,
          ⟨.prim (.str "c4"), none⟩] : List Cell).take
            (["a", "b", "a"] : List String).length⟩ ∧
      (([("a", NVal.v (.str "c3")), ("b", NVal.v (.str "c2"))] : RowObj).map
          Prod.fst).Nodup ∧
      (∀ key, key ∈ ([("a", NVal.v (.str "c3")),
            ("b", NVal.v (.str "c2"))] : RowObj).map Prod.fst ↔
          key ∈ (["a", "b", "a"] : List String)) ∧
      ∀ (l1 : List String) (k : String) (l2 : List String),
        (["a", "b", "a"] : List String) = l1 ++ k :: l2 → k ∉ l2 →
        ∃ val, buildCellVal {} ⟨2, [⟨.prim (.str "c1"), none⟩,
            ⟨.prim (.str "c2"), none⟩, ⟨.prim (.str "c3"), none⟩,
            ⟨.prim (.str "c4"), none⟩]⟩ k l1.length = .ok val ∧
          objLookup [("a", NVal.v (.str "c3")), ("b", NVal.v (.str "c2"))] k =
            some val :=
  C10_theorem {} ["a", "b", "a"] ⟨2, [⟨.prim (.str "c1"), none⟩,
      ⟨.prim (.str "c2"), none⟩, ⟨.prim (.str "c3"), none⟩,
      ⟨.prim (.str "c4"), none⟩]⟩
    [("a", NVal.v (.str "c3")), ("b", NVal.v (.str "c2"))] rfl

/-! ## Row writer (`objectsToXlsx`)

The ExcelJS streaming workbook writer is the external row-sink. The
model records the writer interaction as an event trace: creating the
writer, adding the worksheet, assigning its column schema, adding (and
committing) each mapped row, then committing sheet and workbook. A write
that raises is an `Except.error`; the column-resolution error in
particular is raised before any event exists. (A per-row date-conversion
failure mid-stream collapses the whole trace to the error; only the
fact that it raises matters to the claims.) -/

structure WCol where
  header : String
  key : String
  width : Option Int := none
  deriving DecidableEq, Repr

/-- A row to write: a JS object as an assoc list in key-insertion order
(`Object.entries` / `Object.keys` enumerate in that order for the
string keys used here). -/
abbrev WRow := List (String × PrimVal)

/-- `XlsxWriteOptions` with the source's defaults. -/
structure WriteOpts where
  sheetName : String := "Sheet1"
  columns : Option (List WCol) := none
  useStyles : Bool := false
  useSharedStrings : Bool := false
  timeZone : Option Zone := none
  dateColumns : List String := []

/-- `inferColumnsFromRow(row)`: one column per key of the row, in
encounter order, with the key as header. -/
def inferColumnsFromRow (row : WRow) : List WCol :=
  row.map fun kv => ⟨kv.1, kv.1, none⟩

/-- `shouldConvertDateColumn`: all date fields qualify when
`dateColumns` is empty, else only the listed ones. -/
def shouldConvertDateColumn (columnName : String)
    (dateColumns : List String) : Bool :=
  if dateColumns.length = 0 then true else dateColumns.contains columnName

/-- A value handed to the sink: passed through, or a date re-encoded as
naive local wall-clock fields. -/
inductive WOut where
  | asIs (v : PrimVal)
  | localized (p : DateTimeParts)
  deriving DecidableEq, Repr

/-- `mapRowForExcelWrite(row, timeZone, dateColumnsSet)`: without a zone
the row passes through; with one, every `Date` value in a qualifying
column is converted by `utcDateToExcelLocalDate`. -/
def mapRowForExcelWrite (row : WRow) (timeZone : Option Zone)
    (dateColumns : List String) : Except String (List (String × WOut)) :=
  match timeZone with
  | none => .ok (row.map fun kv => (kv.1, .asIs kv.2))
  | some z =>
    row.mapM fun kv =>
      match kv.2 with
      | .date d =>
        if shouldConvertDateColumn kv.1 dateColumns then
          (fun p => (kv.1, WOut.localized p)) <$> utcDateToExcelLocalDate d z
        else .ok (kv.1, .asIs kv.2)
      | _ => .ok (kv.1, .asIs kv.2)

inductive WEvent where
  | createWriter (useStyles useSharedStrings : Bool)
  | addWorksheet (name : String)
  | setColumns (cols : List WCol)
  | addRow (row : List (String × WOut))
  | commitSheet
  | commitWorkbook
  deriving DecidableEq, Repr

/-- The source's column-resolution error message. -/
def noColumnsMsg : String :=
  "Unable to determine columns. Provide `columns` or include at least one row with keys."

/-- The sink interaction performed once columns are resolved: the
workbook writer is created, the worksheet added, its columns assigned,
every row mapped and added (the first row, already pulled for the
lookahead, first), and sheet and workbook committed. -/
def writeTrace (opts : WriteOpts) (cols : List WCol) (rows : List WRow) :
    Except String (List WEvent) := do
  let rowEvents ← rows.mapM fun r =>
    WEvent.addRow <$> mapRowForExcelWrite r opts.timeZone opts.dateColumns
  .ok ([.createWriter opts.useStyles opts.useSharedStrings,
    .addWorksheet opts.sheetName, .setColumns cols] ++ rowEvents ++
    [.commitSheet, .commitWorkbook])

/-- `objectsToXlsx(output, rows, opts)`: validate a configured zone; pull
the first row (one row of lookahead); resolve the columns — the explicit
`columns` when non-empty, else the first row's inferred columns, else
null; throw `noColumnsMsg` when null or empty, *before* the workbook
writer is created; otherwise run the sink interaction. -/
def objectsToXlsx (opts : WriteOpts) (rows : List WRow) :
    Except String (List WEvent) :=
  match (match opts.timeZone with
      | some z => assertValidTimeZone z
      | none => .ok ()) with
  | .error e => .error e
  | .ok _ =>
    let firstRow? := rows.head?
    let resolvedColumns :=
      match opts.columns with
      | some cs =>
        if 0 < cs.length then some cs else firstRow?.map inferColumnsFromRow
      | none => firstRow?.map inferColumnsFromRow
    match resolvedColumns with
    | none => .error noColumnsMsg
    | some cols =>
      if cols.length = 0 then .error noColumnsMsg
      else writeTrace opts cols rows

/-- C8: the output column schema is the explicit `columns` option when it
is non-empty; otherwise it is inferred from the keys of the first row in
encounter order; and with no non-empty `columns` option and an empty row
sequence the write fails with the no-columns-resolvable error — as an
`Except.error` carrying no sink event at all, i.e. before the workbook
writer is created or any row emitted. -/
theorem C8_theorem
    (optsE : WriteOpts) (rowsE : List WRow) (csE : List WCol)
    (hzE : (match optsE.timeZone with
      | some z => z.valid = true
      | none => True))
    (hcE : optsE.columns = some csE) (hneE : 0 < csE.length)
    (optsI : WriteOpts) (r : WRow) (rest : List WRow)
    (hzI : (match optsI.timeZone with
      | some z => z.valid = true
      | none => True))
    (hcI : optsI.columns = none ∨ optsI.columns = some [])
    (hkeys : 0 < r.length)
    (optsN : WriteOpts)
    (hzN : (match optsN.timeZone with
      | some z => z.valid = true
      | none => True))
    (hcN : optsN.columns = none ∨ optsN.columns = some []) :
    objectsToXlsx optsE rowsE = writeTrace optsE csE rowsE ∧
      objectsToXlsx optsI (r :: rest) =
        writeTrace optsI (inferColumnsFromRow r) (r :: rest) ∧
      objectsToXlsx optsN [] = .error noColumnsMsg := by
  have hz : ∀ (opts : WriteOpts),
      (match opts.timeZone with
        | some z => z.valid = true
        | none => True) →
      (match opts.timeZone with
        | some z => assertValidTimeZone z
        | none => (Except.ok () : Except String Unit)) = .ok () := by
    intro opts h
    rcases htz : opts.timeZone with _ | z
    · rfl
    · rw [htz] at h
      simp [assertValidTimeZone, h]
  refine ⟨?_, ?_, ?_⟩
  · unfold objectsToXlsx
    rw [hz optsE hzE, hcE]
    simp only [if_pos hneE]
    rw [if_neg (by omega)]
  · unfold objectsToXlsx
    rw [hz optsI hzI]
    have hres :
        (match optsI.columns with
          | some cs =>
            if 0 < cs.length then some cs
            else ((r :: rest).head?).map inferColumnsFromRow
          | none => ((r :: rest).head?).map inferColumnsFromRow) =
          some (inferColumnsFromRow r) := by
      rcases hcI with hcI | hcI <;> rw [hcI] <;> simp
    simp only [hres]
    rw [if_neg (by
      unfold inferColumnsFromRow
      rw [List.length_map]
      omega)]
  · unfold objectsToXlsx
    rw [hz optsN hzN]
    rcases hcN with hcN | hcN <;> rw [hcN] <;> simp

/-- C8 witness: an explicit one-column schema is used as given; with no
`columns` option the schema is inferred from the first row's key; with no
`columns` and no rows the call errors with the no-columns message. -/
theorem C8_witness :
    objectsToXlsx { columns := some [⟨"Account", "acct", none⟩] } [] =
        writeTrace { columns := some [⟨"Account", "acct", none⟩] }
          [⟨"Account", "acct", none⟩] [] ∧
      objectsToXlsx {} [[("id", PrimVal.num 1)]] =
        writeTrace {} (inferColumnsFromRow [("id", PrimVal.num 1)])
          [[("id", PrimVal.num 1)]] ∧
      objectsToXlsx {} [] = .error noColumnsMsg :=
  C8_theorem { columns := some [⟨"Account", "acct", none⟩] } [] _ trivial rfl
    (by decide) {} [("id", PrimVal.num 1)] [] trivial (Or.inl rfl) (by decide)
    {} trivial (Or.inl rfl)

end ExcelStream
